import Mathlib

/-!
Shallow embedding of `src/imapsync.py` (functions `get_message_ids`,
`sync_imap_accounts`, `main`) as a pure state-machine interpreter, plus
theorems settling the frozen claims about it.

Modelling decisions, each tied to a line of the source:

* An IMAP server is a listing-ordered list of folders; a folder is a name
  together with its messages in mailbox order.  `list_folders` is the list of
  names, `select_folder`/`search`/`fetch` is a lookup of the first folder with
  the given name (raising when absent), `create_folder` appends an empty
  folder at the end, `append` adds a message at the end of the first folder
  with the given name (raising when absent).
* `email.message_from_bytes(raw)['Message-ID']` is modelled by an arbitrary
  extraction function `extract : String → Option String` (raw bytes are
  modelled as `String`); Python truthiness of the header value
  (lines 81 and 151 test the value itself, so `None` and the empty string both
  count as missing) is `truthyId`.
* Exceptions raised by the endpoint client are modelled by a `Faults` record
  of boolean fault injectors plus the structural failure of operating on an
  absent folder; an interpreter step returns its state paired with a `Bool`
  that is `true` exactly when the Python code would raise out of that step.
  The `try`/`except`/`finally` of `sync_imap_accounts` (lines 115-177) and the
  `try`/`except` of `get_message_ids` (lines 66-88) are where raises stop.
* The observable effects a claim talks about are recorded in the state: the
  ordered trace of mutating destination calls (`create_folder`/`append`), the
  missing-Message-ID warnings (line 153), the index-build error logs
  (line 87), and in the run result the logout calls (lines 176-177), the
  fatal-connection log (line 112) and the run-level error log (line 172).
-/

namespace ImapSync

/-- One message as fetched over RFC822: its raw bytes and its flags. -/
structure Msg where
  raw : String
  flags : List String
deriving DecidableEq, Repr

/-- One folder of a server: its name and its messages in mailbox order. -/
structure Folder where
  name : String
  msgs : List Msg
deriving DecidableEq, Repr

/-- A server is its folders in listing order. -/
abbrev Server := List Folder

/-- A mutating call issued on the destination endpoint
(`create_folder`, line 128, or `append`, line 160). -/
inductive Call where
  | create (folder : String)
  | append (folder : String) (raw : String) (flags : List String)
deriving DecidableEq, Repr

/-- Fault injectors for the endpoint operations that the Python code lets
raise: source `select_folder` (line 136), destination `select_folder`
(line 67), destination `fetch` (line 79), `create_folder` (line 128) and
`append` (line 160, keyed by folder name and raw bytes). -/
structure Faults where
  srcSelectFails : String → Bool
  dstSelectFails : String → Bool
  dstFetchFails : String → Bool
  createFails : String → Bool
  appendFails : String → String → Bool

/-- The fault-free environment: no endpoint operation raises on its own. -/
def noFaults : Faults :=
  ⟨fun _ => false, fun _ => false, fun _ => false, fun _ => false, fun _ _ => false⟩

/-- Python truthiness of a Message-ID header value: `None` (header absent)
and the empty string are both falsy (lines 81 and 151). -/
def truthyId : Option String → Option String
  | none => none
  | some s => if s = "" then none else some s

/-- The identity key of a message under the given header extractor. -/
def msgId (extract : String → Option String) (m : Msg) : Option String :=
  truthyId (extract m.raw)

/-- `select_folder`: the messages of the first folder with the given name,
`none` when no folder has that name (the client raises). -/
def lookupFolder : Server → String → Option (List Msg)
  | [], _ => none
  | fd :: rest, n => if fd.name = n then some fd.msgs else lookupFolder rest n

/-- `append`: add a message at the end of the first folder with the given
name; `none` when no folder has that name (the client raises). -/
def appendMsg : Server → String → Msg → Option Server
  | [], _, _ => none
  | fd :: rest, n, m =>
    if fd.name = n then some ({ fd with msgs := fd.msgs ++ [m] } :: rest)
    else (appendMsg rest n m).map (fd :: ·)

/-- The identity keys present in the named folder (empty when absent). -/
def idsOf (extract : String → Option String) (srv : Server) (n : String) :
    List String :=
  ((lookupFolder srv n).getD []).filterMap (msgId extract)

/-- `get_message_ids` (lines 55-88): select the folder, search all messages,
collect the truthy Message-ID headers; any raise inside is caught and turned
into the empty set plus a logged error (the second component is `true` when
the error branch at line 85 ran). -/
def get_message_ids (extract : String → Option String) (faults : Faults)
    (srv : Server) (folder : String) : List String × Bool :=
  match lookupFolder srv folder with
  | none => ([], true)
  | some msgs =>
    if faults.dstSelectFails folder then ([], true)
    else if msgs.isEmpty then ([], false)
    else if faults.dstFetchFails folder then ([], true)
    else (msgs.filterMap (msgId extract), false)

/-- The mutable state threaded through one run: the destination server, the
trace of mutating destination calls, the missing-Message-ID warnings
(folder, message key), and the folders whose index build logged an error. -/
structure St where
  dst : Server
  calls : List Call
  warnings : List (String × Nat)
  indexErrors : List String
deriving DecidableEq, Repr

/-- Lines 147-168, one iteration: extract the Message-ID; if falsy, warn and
continue; if already indexed, skip; otherwise, unless dry-run, issue the
append (which may raise — second component `true`). -/
def syncMessage (extract : String → Option String) (faults : Faults)
    (dry_run : Bool) (folder : String) (ids : List String) (st : St) :
    Nat × Msg → St × Bool
  | (key, m) =>
    match msgId extract m with
    | none => ({ st with warnings := st.warnings ++ [(folder, key)] }, false)
    | some i =>
      if i ∈ ids then (st, false)
      else if dry_run then (st, false)
      else
        let st' := { st with calls := st.calls ++ [Call.append folder m.raw m.flags] }
        if faults.appendFails folder m.raw then (st', true)
        else
          match appendMsg st'.dst folder m with
          | some dst' => ({ st' with dst := dst' }, false)
          | none => (st', true)

/-- The message loop of lines 147-168: stop as soon as an iteration raises. -/
def syncMsgs (extract : String → Option String) (faults : Faults)
    (dry_run : Bool) (folder : String) (ids : List String) :
    St → List (Nat × Msg) → St × Bool
  | st, [] => (st, false)
  | st, p :: rest =>
    match syncMessage extract faults dry_run folder ids st p with
    | (st', true) => (st', true)
    | (st', false) => syncMsgs extract faults dry_run folder ids st' rest

/-- Lines 124-130, the create step of one folder iteration: re-list the
destination folders and, when the exact source folder name is absent, issue
`create_folder` unless dry-run (the create may raise — second component
`true`). -/
def createStep (faults : Faults) (dry_run : Bool) (st : St) (n : String) :
    St × Bool :=
  if n ∈ st.dst.map Folder.name then (st, false)
  else if dry_run then (st, false)
  else
    let st' := { st with calls := st.calls ++ [Call.create n] }
    if faults.createFails n then (st', true)
    else ({ st' with dst := st'.dst ++ [⟨n, []⟩] }, false)

/-- Lines 133-168, the index-and-transfer step of one folder iteration: build
the destination index via `get_message_ids` (which catches its own raises),
select the source folder (which may raise), search it, and when it is
non-empty run the message loop over its keyed messages. -/
def syncFolderMsgs (extract : String → Option String) (faults : Faults)
    (dry_run : Bool) (src : Server) (st1 : St) (n : String) : St × Bool :=
  let built := get_message_ids extract faults st1.dst n
  let st2 :=
    if built.2 then { st1 with indexErrors := st1.indexErrors ++ [n] } else st1
  if faults.srcSelectFails n then (st2, true)
  else
    let msgs := (lookupFolder src n).getD []
    if msgs.isEmpty then (st2, false)
    else syncMsgs extract faults dry_run n built.1 st2 msgs.enum

/-- One iteration of the folder loop (lines 120-168): the create step, then —
unless the create raised — the index-and-transfer step. -/
def syncFolder (extract : String → Option String) (faults : Faults)
    (dry_run : Bool) (src : Server) (st : St) (fd : Folder) : St × Bool :=
  match createStep faults dry_run st fd.name with
  | (st1, true) => (st1, true)
  | (st1, false) => syncFolderMsgs extract faults dry_run src st1 fd.name

/-- The folder loop of lines 120-168: stop as soon as an iteration raises. -/
def syncFolders (extract : String → Option String) (faults : Faults)
    (dry_run : Bool) (src : Server) : St → List Folder → St × Bool
  | st, [] => (st, false)
  | st, fd :: rest =>
    match syncFolder extract faults dry_run src st fd with
    | (st', true) => (st', true)
    | (st', false) => syncFolders extract faults dry_run src st' rest

/-- The observable outcome of one `sync_imap_accounts` run: final state,
whether the source listing happened, whether the run-level `except`
(line 170) logged, whether the fatal connection error (line 112) logged, and
which sessions had `logout` called (1 = source, 2 = destination). -/
structure RunResult where
  st : St
  srcListed : Bool
  runErrorLogged : Bool
  fatalConnError : Bool
  logouts : List Nat
deriving DecidableEq, Repr

/-- `sync_imap_accounts` (lines 90-177).  `conn1`/`conn2` say whether each
`connect_to_imap` returned a client (it returns `None` on failure).  When
either is missing the function logs the fatal error and returns at line 113 —
before the `try`/`finally` — so no logout happens.  Otherwise the folder loop
runs; a raise out of it is caught by the `except` at line 170, and the
`finally` at line 173 logs out both sessions. -/
def sync_imap_accounts (extract : String → Option String) (faults : Faults)
    (conn1 conn2 : Bool) (src dst : Server) (dry_run : Bool) : RunResult :=
  if conn1 && conn2 then
    let r := syncFolders extract faults dry_run src ⟨dst, [], [], []⟩ src
    ⟨r.1, true, r.2, false, [1, 2]⟩
  else
    ⟨⟨dst, [], [], []⟩, false, false, true, []⟩

/-- `main` (lines 179-200): parses arguments, configures logging, calls
`sync_imap_accounts` and returns `None`.  The program contains no `sys.exit`
call, so whenever `main` returns the Python process exits with status 0. -/
def main_exit_status (extract : String → Option String) (faults : Faults)
    (conn1 conn2 : Bool) (src dst : Server) (dry_run : Bool) : Nat :=
  let _r := sync_imap_accounts extract faults conn1 conn2 src dst dry_run
  0

/-- Whether a destination call is an `append`. -/
def isAppend : Call → Bool
  | Call.append _ _ _ => true
  | Call.create _ => false

/-- A source message the transfer pass copies: its identity key is defined
and not in the (fixed) destination index. -/
def copiesMsg (extract : String → Option String) (ids : List String)
    (m : Msg) : Bool :=
  match msgId extract m with
  | some i => !(ids.contains i)
  | none => false

/-- `DstLe extract s t`: every folder present in `s` is present in `t`, and
every identity key indexed in `s` is indexed in `t`. -/
def DstLe (extract : String → Option String) (s t : Server) : Prop :=
  ∀ k : String, ((lookupFolder s k).isSome → (lookupFolder t k).isSome) ∧
    ∀ i : String, i ∈ idsOf extract s k → i ∈ idsOf extract t k

/-- Identity extractor for concrete scenarios: the whole raw content is the
Message-ID header value. -/
def idExtract : String → Option String := fun r => some r

/-- Fault environment in which appending into folder `A` raises. -/
def appendFaultA : Faults := { noFaults with appendFails := fun f _ => f == "A" }

/-- Fault environment in which fetching from folder `A` raises. -/
def fetchFaultA : Faults := { noFaults with dstFetchFails := fun f => f == "A" }

/-- Concrete source server with two folders, one message each. -/
def cexSrc : Server := [⟨"A", [⟨"a1", []⟩]⟩, ⟨"B", [⟨"b1", []⟩]⟩]

/-! ### Basic lemmas about the server primitives -/

theorem lookupFolder_isSome_iff (srv : Server) (n : String) :
    (lookupFolder srv n).isSome ↔ n ∈ srv.map Folder.name := by
  induction srv with
  | nil => simp [lookupFolder]
  | cons fd rest ih =>
    by_cases h : fd.name = n
    · simp [lookupFolder, h]
    · simp only [lookupFolder, if_neg h, List.map_cons, List.mem_cons, ih]
      constructor
      · exact Or.inr
      · rintro (rfl | hm)
        · exact absurd rfl h
        · exact hm

theorem lookupFolder_append_unit (srv : Server) (c k : String) :
    lookupFolder (srv ++ [⟨c, []⟩]) k =
      match lookupFolder srv k with
      | some l => some l
      | none => if c = k then some ([] : List Msg) else none := by
  induction srv with
  | nil => simp [lookupFolder]
  | cons fd rest ih =>
    by_cases h : fd.name = k <;> simp [lookupFolder, h, ih]

theorem appendMsg_isSome_iff (m : Msg) (srv : Server) (n : String) :
    (appendMsg srv n m).isSome ↔ (lookupFolder srv n).isSome := by
  induction srv with
  | nil => simp [appendMsg, lookupFolder]
  | cons fd rest ih =>
    by_cases h : fd.name = n
    · simp [appendMsg, lookupFolder, h]
    · simpa [appendMsg, lookupFolder, h] using ih

theorem lookupFolder_appendMsg (m : Msg) :
    ∀ (srv srv' : Server) (n k : String), appendMsg srv n m = some srv' →
      lookupFolder srv' k =
        if k = n then (lookupFolder srv n).map (· ++ [m])
        else lookupFolder srv k := by
  intro srv
  induction srv with
  | nil => intro srv' n k h; simp [appendMsg] at h
  | cons fd rest ih =>
    intro srv' n k h
    by_cases hn : fd.name = n
    · simp only [appendMsg, if_pos hn, Option.some.injEq] at h
      subst h
      by_cases hk : fd.name = k
      · have hkn : k = n := hk ▸ hn
        simp [lookupFolder, hk, hkn, hn]
      · have hkn : ¬ k = n := fun he => hk (he ▸ hn)
        simp [lookupFolder, hk, hkn]
    · simp only [appendMsg, if_neg hn] at h
      rcases Option.map_eq_some'.mp h with ⟨rest', hrest, rfl⟩
      by_cases hk : fd.name = k
      · have hkn : ¬ k = n := fun he => hn (hk.trans he)
        simp [lookupFolder, hk, hkn]
      · have := ih rest' n k hrest
        simp only [lookupFolder, if_neg hk, if_neg hn, this]

theorem mem_idsOf_append_unit (extract : String → Option String)
    (srv : Server) (c k i : String) (h : i ∈ idsOf extract srv k) :
    i ∈ idsOf extract (srv ++ [⟨c, []⟩]) k := by
  unfold idsOf at *
  rw [lookupFolder_append_unit]
  cases hl : lookupFolder srv k with
  | some l => rw [hl] at h; simpa using h
  | none => rw [hl] at h; simp at h

theorem lookupFolder_isSome_append_unit (srv : Server) (c k : String)
    (h : (lookupFolder srv k).isSome) :
    (lookupFolder (srv ++ [⟨c, []⟩]) k).isSome := by
  rw [lookupFolder_append_unit]
  cases hl : lookupFolder srv k with
  | some l => simp
  | none => rw [hl] at h; simp at h

theorem mem_idsOf_appendMsg (extract : String → Option String) (m : Msg)
    (srv srv' : Server) (n : String) (h : appendMsg srv n m = some srv')
    (k i : String) (hi : i ∈ idsOf extract srv k) :
    i ∈ idsOf extract srv' k := by
  unfold idsOf at *
  rw [lookupFolder_appendMsg m srv srv' n k h]
  by_cases hk : k = n
  · subst hk
    cases hl : lookupFolder srv k with
    | some l =>
      rw [hl] at hi
      simp only [Option.getD_some] at hi
      rw [if_pos rfl]
      simp only [Option.map_some', Option.getD_some, List.filterMap_append]
      exact List.mem_append_left _ hi
    | none => rw [hl] at hi; simp at hi
  · rw [if_neg hk]; exact hi

theorem lookupFolder_isSome_appendMsg (m : Msg) (srv srv' : Server)
    (n : String) (h : appendMsg srv n m = some srv') (k : String)
    (hk : (lookupFolder srv k).isSome) :
    (lookupFolder srv' k).isSome := by
  rw [lookupFolder_appendMsg m srv srv' n k h]
  by_cases hkn : k = n
  · subst hkn
    cases hl : lookupFolder srv k with
    | some l => simp
    | none => rw [hl] at hk; simp at hk
  · rwa [if_neg hkn]

theorem msgId_mem_idsOf_appendMsg (extract : String → Option String)
    (m : Msg) (srv srv' : Server) (n i : String)
    (h : appendMsg srv n m = some srv') (hm : msgId extract m = some i) :
    i ∈ idsOf extract srv' n := by
  have hs : (lookupFolder srv n).isSome := by
    rw [← appendMsg_isSome_iff m]; exact h ▸ rfl
  rcases Option.isSome_iff_exists.mp hs with ⟨l, hl⟩
  unfold idsOf
  rw [lookupFolder_appendMsg m srv srv' n n h, if_pos rfl, hl]
  simp [List.filterMap_append, hm]

/-! ### A growth order on destination states

Every destination-mutating step of the run only extends the folder set and
each folder's identity-key set; `DstLe` records exactly the two facts the
idempotence argument needs. -/

theorem dstLe_refl (extract : String → Option String) (s : Server) :
    DstLe extract s s :=
  fun _ => ⟨id, fun _ => id⟩

theorem dstLe_trans (extract : String → Option String) (s t u : Server)
    (h1 : DstLe extract s t) (h2 : DstLe extract t u) : DstLe extract s u :=
  fun k => ⟨fun h => (h2 k).1 ((h1 k).1 h),
    fun i hi => (h2 k).2 i ((h1 k).2 i hi)⟩

theorem dstLe_append_unit (extract : String → Option String) (srv : Server)
    (c : String) : DstLe extract srv (srv ++ [⟨c, []⟩]) :=
  fun k => ⟨lookupFolder_isSome_append_unit srv c k,
    fun i => mem_idsOf_append_unit extract srv c k i⟩

theorem dstLe_appendMsg (extract : String → Option String) (m : Msg)
    (srv srv' : Server) (n : String) (h : appendMsg srv n m = some srv') :
    DstLe extract srv srv' :=
  fun k => ⟨lookupFolder_isSome_appendMsg m srv srv' n h k,
    fun i => mem_idsOf_appendMsg extract m srv srv' n h k i⟩

/-- With no injected faults, building the index of a present folder returns
exactly that folder's identity keys and logs no error. -/
theorem get_message_ids_noFaults (extract : String → Option String)
    (srv : Server) (n : String) (h : (lookupFolder srv n).isSome) :
    get_message_ids extract noFaults srv n = (idsOf extract srv n, false) := by
  rcases Option.isSome_iff_exists.mp h with ⟨l, hl⟩
  unfold get_message_ids idsOf
  rw [hl]
  simp only [noFaults, Bool.false_eq_true, if_false, Option.getD_some]
  cases hl' : l.isEmpty
  · simp [hl']
  · simp [hl', List.isEmpty_iff.mp hl']

/-! ### Enumeration helpers (the fetch loop iterates keyed messages) -/

theorem snd_mem_of_mem_enumFrom {α : Type} :
    ∀ (l : List α) (k : Nat) (p : Nat × α), p ∈ l.enumFrom k → p.2 ∈ l := by
  intro l
  induction l with
  | nil => intro k p h; simp [List.enumFrom] at h
  | cons x xs ih =>
    intro k p h
    simp only [List.enumFrom, List.mem_cons] at h
    rcases h with rfl | h
    · exact List.mem_cons_self _ _
    · exact List.mem_cons_of_mem _ (ih (k + 1) p h)

theorem exists_mem_enumFrom_of_mem {α : Type} :
    ∀ (l : List α) (k : Nat) (x : α), x ∈ l → ∃ j, (j, x) ∈ l.enumFrom k := by
  intro l
  induction l with
  | nil => intro k x h; simp at h
  | cons y ys ih =>
    intro k x h
    rcases List.mem_cons.mp h with rfl | h
    · exact ⟨k, by simp [List.enumFrom]⟩
    · rcases ih (k + 1) x h with ⟨j, hj⟩
      exact ⟨j, by simp [List.enumFrom, Or.inr hj]⟩

theorem snd_mem_of_mem_enum {α : Type} (l : List α) (p : Nat × α)
    (h : p ∈ l.enum) : p.2 ∈ l :=
  snd_mem_of_mem_enumFrom l 0 p h

theorem exists_mem_enum_of_mem {α : Type} (l : List α) (x : α) (h : x ∈ l) :
    ∃ j, (j, x) ∈ l.enum :=
  exists_mem_enumFrom_of_mem l 0 x h

theorem noFaults_srcSelectFails (n : String) :
    noFaults.srcSelectFails n = false := rfl

theorem noFaults_dstSelectFails (n : String) :
    noFaults.dstSelectFails n = false := rfl

theorem noFaults_dstFetchFails (n : String) :
    noFaults.dstFetchFails n = false := rfl

theorem noFaults_createFails (n : String) :
    noFaults.createFails n = false := rfl

theorem noFaults_appendFails (n r : String) :
    noFaults.appendFails n r = false := rfl

/-! ### Behaviour of the interpreter under no faults, normal mode

These lemmas drive the idempotence proof: a fault-free non-dry run never
raises, only grows the destination, and leaves every identity key of the
processed source folder indexed in the destination. -/

theorem syncMessage_run (extract : String → Option String) (folder : String)
    (ids : List String) (st : St) (p : Nat × Msg)
    (hsome : (lookupFolder st.dst folder).isSome) (st' : St) (b : Bool)
    (h : syncMessage extract noFaults false folder ids st p = (st', b)) :
    b = false ∧ DstLe extract st.dst st'.dst ∧
    (lookupFolder st'.dst folder).isSome ∧
    ∀ i, msgId extract p.2 = some i →
      i ∈ ids ∨ i ∈ idsOf extract st'.dst folder := by
  obtain ⟨key, m⟩ := p
  cases hm : msgId extract m with
  | none =>
    simp only [syncMessage, hm, Prod.mk.injEq] at h
    obtain ⟨rfl, rfl⟩ := h
    exact ⟨rfl, dstLe_refl extract st.dst, hsome, fun i hi => by simp at hi⟩
  | some i =>
    by_cases hin : i ∈ ids
    · simp only [syncMessage, hm, if_pos hin, Prod.mk.injEq] at h
      obtain ⟨rfl, rfl⟩ := h
      refine ⟨rfl, dstLe_refl extract st.dst, hsome, fun i' hi' => ?_⟩
      exact Or.inl (Option.some.inj hi' ▸ hin)
    · have happ : (appendMsg st.dst folder m).isSome :=
        (appendMsg_isSome_iff m st.dst folder).mpr hsome
      rcases Option.isSome_iff_exists.mp happ with ⟨dst', hdst⟩
      simp only [syncMessage, hm, if_neg hin, noFaults_appendFails,
        Bool.false_eq_true, if_false, hdst, Prod.mk.injEq] at h
      obtain ⟨rfl, rfl⟩ := h
      refine ⟨rfl, dstLe_appendMsg extract m st.dst dst' folder hdst,
        lookupFolder_isSome_appendMsg m st.dst dst' folder hdst folder hsome,
        fun i' hi' => ?_⟩
      exact Or.inr (Option.some.inj hi' ▸
        msgId_mem_idsOf_appendMsg extract m st.dst dst' folder i hdst hm)

theorem syncMsgs_run (extract : String → Option String) (folder : String)
    (ids : List String) :
    ∀ (L : List (Nat × Msg)) (st st' : St) (b : Bool),
      syncMsgs extract noFaults false folder ids st L = (st', b) →
      (lookupFolder st.dst folder).isSome →
      (∀ i ∈ ids, i ∈ idsOf extract st.dst folder) →
      b = false ∧ DstLe extract st.dst st'.dst ∧
      (lookupFolder st'.dst folder).isSome ∧
      (∀ i ∈ ids, i ∈ idsOf extract st'.dst folder) ∧
      ∀ p ∈ L, ∀ i, msgId extract p.2 = some i →
        i ∈ idsOf extract st'.dst folder := by
  intro L
  induction L with
  | nil =>
    intro st st' b h hsome hids
    simp only [syncMsgs, Prod.mk.injEq] at h
    obtain ⟨rfl, rfl⟩ := h
    exact ⟨rfl, dstLe_refl extract st.dst, hsome, hids, fun p hp => by simp at hp⟩
  | cons p rest ih =>
    intro st st' b h hsome hids
    rcases hsm : syncMessage extract noFaults false folder ids st p with ⟨st1, b1⟩
    obtain ⟨hb1, hle1, hsome1, hcov1⟩ :=
      syncMessage_run extract folder ids st p hsome st1 b1 hsm
    subst hb1
    simp only [syncMsgs, hsm] at h
    have hids1 : ∀ i ∈ ids, i ∈ idsOf extract st1.dst folder :=
      fun i hi => (hle1 folder).2 i (hids i hi)
    obtain ⟨hb, hle2, hsome2, hids2, hcov2⟩ := ih st1 st' b h hsome1 hids1
    refine ⟨hb, dstLe_trans extract st.dst st1.dst st'.dst hle1 hle2,
      hsome2, hids2, fun q hq i hi => ?_⟩
    rcases List.mem_cons.mp hq with rfl | hq'
    · rcases hcov1 i hi with hini | hinf
      · exact hids2 i hini
      · exact (hle2 folder).2 i hinf
    · exact hcov2 q hq' i hi

theorem syncFolderMsgs_run (extract : String → Option String) (src : Server)
    (n : String) (st1 st' : St) (b : Bool)
    (hsome : (lookupFolder st1.dst n).isSome)
    (h : syncFolderMsgs extract noFaults false src st1 n = (st', b)) :
    b = false ∧ DstLe extract st1.dst st'.dst ∧
    (lookupFolder st'.dst n).isSome ∧
    ∀ m ∈ (lookupFolder src n).getD [], ∀ i,
      msgId extract m = some i → i ∈ idsOf extract st'.dst n := by
  simp only [syncFolderMsgs, get_message_ids_noFaults extract st1.dst n hsome,
    noFaults_srcSelectFails, Bool.false_eq_true, if_false] at h
  cases hE : ((lookupFolder src n).getD []).isEmpty
  · rw [hE] at h
    simp only [Bool.false_eq_true, if_false] at h
    obtain ⟨hb, hle, hsome', hids', hcov⟩ :=
      syncMsgs_run extract n (idsOf extract st1.dst n)
        ((lookupFolder src n).getD []).enum st1 st' b h hsome
        (fun i hi => hi)
    refine ⟨hb, hle, hsome', fun m hm i hi => ?_⟩
    rcases exists_mem_enum_of_mem _ m hm with ⟨j, hj⟩
    exact hcov (j, m) hj i hi
  · rw [hE] at h
    simp only [if_true, Prod.mk.injEq] at h
    obtain ⟨rfl, rfl⟩ := h
    have : (lookupFolder src n).getD [] = [] := List.isEmpty_iff.mp hE
    exact ⟨rfl, dstLe_refl extract st1.dst, hsome,
      fun m hm => by rw [this] at hm; simp at hm⟩

theorem syncFolder_run (extract : String → Option String) (src : Server)
    (st : St) (fd : Folder) (st' : St) (b : Bool)
    (h : syncFolder extract noFaults false src st fd = (st', b)) :
    b = false ∧ DstLe extract st.dst st'.dst ∧
    (lookupFolder st'.dst fd.name).isSome ∧
    ∀ m ∈ (lookupFolder src fd.name).getD [], ∀ i,
      msgId extract m = some i → i ∈ idsOf extract st'.dst fd.name := by
  by_cases hn : fd.name ∈ st.dst.map Folder.name
  · have hsome : (lookupFolder st.dst fd.name).isSome :=
      (lookupFolder_isSome_iff st.dst fd.name).mpr hn
    simp only [syncFolder, createStep, if_pos hn] at h
    exact syncFolderMsgs_run extract src fd.name st st' b hsome h
  · have hnone : lookupFolder st.dst fd.name = none := by
      cases hl : lookupFolder st.dst fd.name with
      | none => rfl
      | some l =>
        exact absurd ((lookupFolder_isSome_iff st.dst fd.name).mp
          (by rw [hl]; rfl)) hn
    simp only [syncFolder, createStep, if_neg hn, Bool.false_eq_true,
      if_false, noFaults_createFails] at h
    set st1 : St := { st with
      calls := st.calls ++ [Call.create fd.name],
      dst := st.dst ++ [⟨fd.name, []⟩] } with hst1
    have hsome1 : (lookupFolder st1.dst fd.name).isSome := by
      show (lookupFolder (st.dst ++ [⟨fd.name, []⟩]) fd.name).isSome
      rw [lookupFolder_append_unit, hnone]
      simp
    have hle1 : DstLe extract st.dst st1.dst :=
      dstLe_append_unit extract st.dst fd.name
    obtain ⟨hb, hle2, hsome', hcov⟩ :=
      syncFolderMsgs_run extract src fd.name st1 st' b hsome1 h
    exact ⟨hb, dstLe_trans extract st.dst st1.dst st'.dst hle1 hle2,
      hsome', hcov⟩

theorem syncFolders_run (extract : String → Option String) (src : Server) :
    ∀ (L : List Folder) (st st' : St) (b : Bool),
      syncFolders extract noFaults false src st L = (st', b) →
      b = false ∧ DstLe extract st.dst st'.dst ∧
      ∀ fd ∈ L, (lookupFolder st'.dst fd.name).isSome ∧
        ∀ m ∈ (lookupFolder src fd.name).getD [], ∀ i,
          msgId extract m = some i → i ∈ idsOf extract st'.dst fd.name := by
  intro L
  induction L with
  | nil =>
    intro st st' b h
    simp only [syncFolders, Prod.mk.injEq] at h
    obtain ⟨rfl, rfl⟩ := h
    exact ⟨rfl, dstLe_refl extract st.dst, fun fd hfd => by simp at hfd⟩
  | cons fd rest ih =>
    intro st st' b h
    rcases hsf : syncFolder extract noFaults false src st fd with ⟨st1, b1⟩
    obtain ⟨hb1, hle1, hsome1, hcov1⟩ :=
      syncFolder_run extract src st fd st1 b1 hsf
    subst hb1
    simp only [syncFolders, hsf] at h
    obtain ⟨hb, hle2, hrest⟩ := ih st1 st' b h
    refine ⟨hb, dstLe_trans extract st.dst st1.dst st'.dst hle1 hle2,
      fun g hg => ?_⟩
    rcases List.mem_cons.mp hg with rfl | hg'
    · exact ⟨(hle2 g.name).1 hsome1,
        fun m hm i hi => (hle2 g.name).2 i (hcov1 m hm i hi)⟩
    · exact hrest g hg'

/-! ### Stability: a run whose work is already done changes nothing

When every source message of a folder is already indexed in the destination,
the fault-free non-dry interpreter leaves the destination and the call trace
untouched (only warnings for identity-less messages recur). -/

theorem syncMsgs_stable (extract : String → Option String) (folder : String)
    (ids : List String) :
    ∀ (L : List (Nat × Msg)) (st st' : St) (b : Bool),
      syncMsgs extract noFaults false folder ids st L = (st', b) →
      (∀ p ∈ L, ∀ i, msgId extract p.2 = some i → i ∈ ids) →
      b = false ∧ st'.dst = st.dst ∧ st'.calls = st.calls := by
  intro L
  induction L with
  | nil =>
    intro st st' b h _
    simp only [syncMsgs, Prod.mk.injEq] at h
    obtain ⟨rfl, rfl⟩ := h
    exact ⟨rfl, rfl, rfl⟩
  | cons p rest ih =>
    intro st st' b h hcov
    obtain ⟨key, m⟩ := p
    cases hm : msgId extract m with
    | none =>
      simp only [syncMsgs, syncMessage, hm] at h
      obtain ⟨hb, hdst, hcalls⟩ := ih _ st' b h
        (fun q hq => hcov q (List.mem_cons_of_mem _ hq))
      exact ⟨hb, hdst, hcalls⟩
    | some i =>
      have hin : i ∈ ids := hcov (key, m) (List.mem_cons_self _ _) i hm
      simp only [syncMsgs, syncMessage, hm, if_pos hin] at h
      exact ih st st' b h (fun q hq => hcov q (List.mem_cons_of_mem _ hq))

theorem syncFolderMsgs_stable (extract : String → Option String)
    (src : Server) (n : String) (st st' : St) (b : Bool)
    (hsome : (lookupFolder st.dst n).isSome)
    (hcov : ∀ m ∈ (lookupFolder src n).getD [], ∀ i,
      msgId extract m = some i → i ∈ idsOf extract st.dst n)
    (h : syncFolderMsgs extract noFaults false src st n = (st', b)) :
    b = false ∧ st'.dst = st.dst ∧ st'.calls = st.calls := by
  simp only [syncFolderMsgs, get_message_ids_noFaults extract st.dst n hsome,
    noFaults_srcSelectFails, Bool.false_eq_true, if_false] at h
  cases hE : ((lookupFolder src n).getD []).isEmpty
  · rw [hE] at h
    simp only [Bool.false_eq_true, if_false] at h
    exact syncMsgs_stable extract n (idsOf extract st.dst n) _ st st' b h
      (fun p hp i hi => hcov p.2 (snd_mem_of_mem_enum _ p hp) i hi)
  · rw [hE] at h
    simp only [if_true, Prod.mk.injEq] at h
    obtain ⟨rfl, rfl⟩ := h
    exact ⟨rfl, rfl, rfl⟩

theorem syncFolder_stable (extract : String → Option String) (src : Server)
    (st : St) (fd : Folder) (st' : St) (b : Bool)
    (hsome : (lookupFolder st.dst fd.name).isSome)
    (hcov : ∀ m ∈ (lookupFolder src fd.name).getD [], ∀ i,
      msgId extract m = some i → i ∈ idsOf extract st.dst fd.name)
    (h : syncFolder extract noFaults false src st fd = (st', b)) :
    b = false ∧ st'.dst = st.dst ∧ st'.calls = st.calls := by
  have hn : fd.name ∈ st.dst.map Folder.name :=
    (lookupFolder_isSome_iff st.dst fd.name).mp hsome
  simp only [syncFolder, createStep, if_pos hn] at h
  exact syncFolderMsgs_stable extract src fd.name st st' b hsome hcov h

theorem syncFolders_stable (extract : String → Option String) (src : Server) :
    ∀ (L : List Folder) (st st' : St) (b : Bool),
      syncFolders extract noFaults false src st L = (st', b) →
      (∀ fd ∈ L, (lookupFolder st.dst fd.name).isSome ∧
        ∀ m ∈ (lookupFolder src fd.name).getD [], ∀ i,
          msgId extract m = some i → i ∈ idsOf extract st.dst fd.name) →
      b = false ∧ st'.dst = st.dst ∧ st'.calls = st.calls := by
  intro L
  induction L with
  | nil =>
    intro st st' b h _
    simp only [syncFolders, Prod.mk.injEq] at h
    obtain ⟨rfl, rfl⟩ := h
    exact ⟨rfl, rfl, rfl⟩
  | cons fd rest ih =>
    intro st st' b h hcov
    rcases hsf : syncFolder extract noFaults false src st fd with ⟨st1, b1⟩
    obtain ⟨hb1, hdst1, hcalls1⟩ := syncFolder_stable extract src st fd st1 b1
      (hcov fd (List.mem_cons_self _ _)).1
      (hcov fd (List.mem_cons_self _ _)).2 hsf
    subst hb1
    simp only [syncFolders, hsf] at h
    obtain ⟨hb, hdst, hcalls⟩ := ih st1 st' b h
      (fun g hg => by rw [hdst1]; exact hcov g (List.mem_cons_of_mem _ hg))
    exact ⟨hb, hdst.trans hdst1, hcalls.trans hcalls1⟩

/-! ### Dry-run invariance of the interpreter -/

theorem syncMessage_dry (extract : String → Option String) (faults : Faults)
    (folder : String) (ids : List String) (st : St) (p : Nat × Msg) :
    (syncMessage extract faults true folder ids st p).1.dst = st.dst ∧
    (syncMessage extract faults true folder ids st p).1.calls = st.calls ∧
    (syncMessage extract faults true folder ids st p).2 = false := by
  obtain ⟨key, m⟩ := p
  cases hm : msgId extract m with
  | none => simp [syncMessage, hm]
  | some i =>
    by_cases hin : i ∈ ids <;> simp [syncMessage, hm, hin]

theorem syncMsgs_dry (extract : String → Option String) (faults : Faults)
    (folder : String) (ids : List String) :
    ∀ (L : List (Nat × Msg)) (st st' : St) (b : Bool),
      syncMsgs extract faults true folder ids st L = (st', b) →
      st'.dst = st.dst ∧ st'.calls = st.calls ∧ b = false := by
  intro L
  induction L with
  | nil =>
    intro st st' b h
    simp only [syncMsgs, Prod.mk.injEq] at h
    obtain ⟨rfl, rfl⟩ := h
    exact ⟨rfl, rfl, rfl⟩
  | cons p rest ih =>
    intro st st' b h
    rcases hsm : syncMessage extract faults true folder ids st p with ⟨st1, b1⟩
    obtain ⟨hd1, hc1, hb1⟩ := syncMessage_dry extract faults folder ids st p
    rw [hsm] at hd1 hc1 hb1
    subst hb1
    simp only [syncMsgs, hsm] at h
    obtain ⟨hd, hc, hb⟩ := ih st1 st' b h
    exact ⟨hd.trans hd1, hc.trans hc1, hb⟩

theorem createStep_dry (faults : Faults) (st : St) (n : String) :
    createStep faults true st n = (st, false) := by
  by_cases hn : n ∈ st.dst.map Folder.name <;> simp [createStep, hn]

theorem syncFolderMsgs_dry (extract : String → Option String)
    (faults : Faults) (src : Server) (n : String) (st st' : St) (b : Bool)
    (h : syncFolderMsgs extract faults true src st n = (st', b)) :
    st'.dst = st.dst ∧ st'.calls = st.calls := by
  simp only [syncFolderMsgs] at h
  set st2 : St := if (get_message_ids extract faults st.dst n).2 then
    { st with indexErrors := st.indexErrors ++ [n] } else st with hst2
  have hd2 : st2.dst = st.dst := by
    rw [hst2]; split <;> rfl
  have hc2 : st2.calls = st.calls := by
    rw [hst2]; split <;> rfl
  cases hsel : faults.srcSelectFails n
  · rw [hsel] at h
    simp only [Bool.false_eq_true, if_false] at h
    cases hE : ((lookupFolder src n).getD []).isEmpty
    · rw [hE] at h
      simp only [Bool.false_eq_true, if_false] at h
      obtain ⟨hd, hc, _⟩ := syncMsgs_dry extract faults n
        (get_message_ids extract faults st.dst n).1 _ st2 st' b h
      exact ⟨hd.trans hd2, hc.trans hc2⟩
    · rw [hE] at h
      simp only [if_true, Prod.mk.injEq] at h
      obtain ⟨rfl, rfl⟩ := h
      exact ⟨hd2, hc2⟩
  · rw [hsel] at h
    simp only [if_true, Prod.mk.injEq] at h
    obtain ⟨rfl, rfl⟩ := h
    exact ⟨hd2, hc2⟩

theorem syncFolder_dry (extract : String → Option String) (faults : Faults)
    (src : Server) (st : St) (fd : Folder) (st' : St) (b : Bool)
    (h : syncFolder extract faults true src st fd = (st', b)) :
    st'.dst = st.dst ∧ st'.calls = st.calls := by
  simp only [syncFolder, createStep_dry] at h
  exact syncFolderMsgs_dry extract faults src fd.name st st' b h

theorem syncFolders_dry (extract : String → Option String) (faults : Faults)
    (src : Server) :
    ∀ (L : List Folder) (st st' : St) (b : Bool),
      syncFolders extract faults true src st L = (st', b) →
      st'.dst = st.dst ∧ st'.calls = st.calls := by
  intro L
  induction L with
  | nil =>
    intro st st' b h
    simp only [syncFolders, Prod.mk.injEq] at h
    obtain ⟨rfl, rfl⟩ := h
    exact ⟨rfl, rfl⟩
  | cons fd rest ih =>
    intro st st' b h
    rcases hsf : syncFolder extract faults true src st fd with ⟨st1, b1⟩
    obtain ⟨hd1, hc1⟩ := syncFolder_dry extract faults src st fd st1 b1 hsf
    cases b1
    · simp only [syncFolders, hsf] at h
      obtain ⟨hd, hc⟩ := ih st1 st' b h
      exact ⟨hd.trans hd1, hc.trans hc1⟩
    · simp only [syncFolders, hsf, Prod.mk.injEq] at h
      obtain ⟨rfl, rfl⟩ := h
      exact ⟨hd1, hc1⟩

/-! ### Shape of the call trace produced by one folder iteration -/

theorem syncMessage_calls_shape (extract : String → Option String)
    (faults : Faults) (dry_run : Bool) (folder : String) (ids : List String)
    (st : St) (p : Nat × Msg) :
    ∃ tail, (syncMessage extract faults dry_run folder ids st p).1.calls =
        st.calls ++ tail ∧
      ∀ c ∈ tail, ∃ r fl, c = Call.append folder r fl := by
  obtain ⟨key, m⟩ := p
  cases hm : msgId extract m with
  | none => exact ⟨[], by simp [syncMessage, hm]⟩
  | some i =>
    by_cases hin : i ∈ ids
    · exact ⟨[], by simp [syncMessage, hm, hin]⟩
    · cases hd : dry_run
      · cases hap : faults.appendFails folder m.raw
        · cases happ : appendMsg st.dst folder m with
          | some dst' =>
            refine ⟨[Call.append folder m.raw m.flags], ?_, ?_⟩
            · simp [syncMessage, hm, hin, hap, happ]
            · intro c hc
              rcases List.mem_singleton.mp hc with rfl
              exact ⟨m.raw, m.flags, rfl⟩
          | none =>
            refine ⟨[Call.append folder m.raw m.flags], ?_, ?_⟩
            · simp [syncMessage, hm, hin, hap, happ]
            · intro c hc
              rcases List.mem_singleton.mp hc with rfl
              exact ⟨m.raw, m.flags, rfl⟩
        · refine ⟨[Call.append folder m.raw m.flags], ?_, ?_⟩
          · simp [syncMessage, hm, hin, hap]
          · intro c hc
            rcases List.mem_singleton.mp hc with rfl
            exact ⟨m.raw, m.flags, rfl⟩
      · exact ⟨[], by simp [syncMessage, hm, hin]⟩

theorem syncMsgs_calls_shape (extract : String → Option String)
    (faults : Faults) (dry_run : Bool) (folder : String) (ids : List String) :
    ∀ (L : List (Nat × Msg)) (st st' : St) (b : Bool),
      syncMsgs extract faults dry_run folder ids st L = (st', b) →
      ∃ tail, st'.calls = st.calls ++ tail ∧
        ∀ c ∈ tail, ∃ r fl, c = Call.append folder r fl := by
  intro L
  induction L with
  | nil =>
    intro st st' b h
    simp only [syncMsgs, Prod.mk.injEq] at h
    obtain ⟨rfl, rfl⟩ := h
    exact ⟨[], by simp, fun c hc => by simp at hc⟩
  | cons p rest ih =>
    intro st st' b h
    rcases hsm : syncMessage extract faults dry_run folder ids st p with ⟨st1, b1⟩
    obtain ⟨t1, ht1, ht1a⟩ := syncMessage_calls_shape extract faults dry_run
      folder ids st p
    rw [hsm] at ht1
    cases b1
    · simp only [syncMsgs, hsm] at h
      obtain ⟨t2, ht2, ht2a⟩ := ih st1 st' b h
      refine ⟨t1 ++ t2, by rw [ht2, ht1, List.append_assoc], fun c hc => ?_⟩
      rcases List.mem_append.mp hc with hc1 | hc2
      · exact ht1a c hc1
      · exact ht2a c hc2
    · simp only [syncMsgs, hsm, Prod.mk.injEq] at h
      obtain ⟨rfl, rfl⟩ := h
      exact ⟨t1, ht1, ht1a⟩

theorem syncFolderMsgs_calls_shape (extract : String → Option String)
    (faults : Faults) (dry_run : Bool) (src : Server) (n : String)
    (st st' : St) (b : Bool)
    (h : syncFolderMsgs extract faults dry_run src st n = (st', b)) :
    ∃ tail, st'.calls = st.calls ++ tail ∧
      ∀ c ∈ tail, ∃ r fl, c = Call.append n r fl := by
  simp only [syncFolderMsgs] at h
  set st2 : St := if (get_message_ids extract faults st.dst n).2 then
    { st with indexErrors := st.indexErrors ++ [n] } else st with hst2
  have hc2 : st2.calls = st.calls := by
    rw [hst2]; split <;> rfl
  cases hsel : faults.srcSelectFails n
  · rw [hsel] at h
    simp only [Bool.false_eq_true, if_false] at h
    cases hE : ((lookupFolder src n).getD []).isEmpty
    · rw [hE] at h
      simp only [Bool.false_eq_true, if_false] at h
      obtain ⟨tail, ht, hta⟩ := syncMsgs_calls_shape extract faults dry_run n
        (get_message_ids extract faults st.dst n).1 _ st2 st' b h
      exact ⟨tail, by rw [ht, hc2], hta⟩
    · rw [hE] at h
      simp only [if_true, Prod.mk.injEq] at h
      obtain ⟨rfl, rfl⟩ := h
      exact ⟨[], by simp [hc2], fun c hc => by simp at hc⟩
  · rw [hsel] at h
    simp only [if_true, Prod.mk.injEq] at h
    obtain ⟨rfl, rfl⟩ := h
    exact ⟨[], by simp [hc2], fun c hc => by simp at hc⟩

/-! ### Counting the appends of one transfer pass -/

theorem countP_append_singleton (l : List Call) (c : Call) (p : Call → Bool) :
    (l ++ [c]).countP p = l.countP p + (if p c then 1 else 0) := by
  rw [List.countP_append]
  simp [List.countP_cons]

theorem enumFrom_countP_snd {α : Type} (q : α → Bool) :
    ∀ (l : List α) (k : Nat),
      (l.enumFrom k).countP (fun p => q p.2) = l.countP q := by
  intro l
  induction l with
  | nil => intro k; simp [List.enumFrom]
  | cons x xs ih =>
    intro k
    simp only [List.enumFrom, List.countP_cons, ih (k + 1)]

theorem syncMessage_append_count (extract : String → Option String)
    (folder : String) (ids : List String) (st : St) (p : Nat × Msg)
    (hsome : (lookupFolder st.dst folder).isSome) :
    (syncMessage extract noFaults false folder ids st p).2 = false ∧
    (lookupFolder (syncMessage extract noFaults false folder ids st
      p).1.dst folder).isSome ∧
    (syncMessage extract noFaults false folder ids st p).1.calls.countP
        isAppend =
      st.calls.countP isAppend +
        (if copiesMsg extract ids p.2 then 1 else 0) := by
  obtain ⟨key, m⟩ := p
  cases hm : msgId extract m with
  | none =>
    simp [syncMessage, hm, copiesMsg, hsome]
  | some i =>
    by_cases hin : i ∈ ids
    · have hc : ids.contains i = true := List.elem_iff.mpr hin
      have hcp : copiesMsg extract ids m = false := by
        simp [copiesMsg, hm, hin]
      simp only [syncMessage, hm, if_pos hin]
      exact ⟨by simp, hsome, by simp [hcp]⟩
    · have hcp : copiesMsg extract ids m = true := by
        simp only [copiesMsg, hm, Bool.not_eq_true']
        cases hc : ids.contains i
        · rfl
        · exact absurd (List.elem_iff.mp hc) hin
      have happ : (appendMsg st.dst folder m).isSome :=
        (appendMsg_isSome_iff m st.dst folder).mpr hsome
      rcases Option.isSome_iff_exists.mp happ with ⟨dst', hdst⟩
      refine ⟨?_, ?_, ?_⟩
      · simp [syncMessage, hm, hin, noFaults_appendFails, hdst]
      · simp only [syncMessage, hm, if_neg hin, noFaults_appendFails,
          Bool.false_eq_true, if_false, hdst]
        exact lookupFolder_isSome_appendMsg m st.dst dst' folder hdst
          folder hsome
      · simp only [syncMessage, hm, if_neg hin, noFaults_appendFails,
          Bool.false_eq_true, if_false, hdst, hcp, if_true]
        exact countP_append_singleton st.calls _ isAppend ▸ by
          simp [isAppend]

theorem syncMsgs_append_count (extract : String → Option String)
    (folder : String) (ids : List String) :
    ∀ (L : List (Nat × Msg)) (st : St),
      (lookupFolder st.dst folder).isSome →
      (syncMsgs extract noFaults false folder ids st L).1.calls.countP
          isAppend =
        st.calls.countP isAppend +
          L.countP (fun p => copiesMsg extract ids p.2) := by
  intro L
  induction L with
  | nil => intro st _; simp [syncMsgs]
  | cons p rest ih =>
    intro st hsome
    rcases hsm : syncMessage extract noFaults false folder ids st p with ⟨st1, b1⟩
    obtain ⟨hb1, hsome1, hcount1⟩ :=
      syncMessage_append_count extract folder ids st p hsome
    rw [hsm] at hb1 hsome1 hcount1
    subst hb1
    simp only [syncMsgs, hsm, List.countP_cons]
    rw [ih st1 hsome1, hcount1]
    ring

/-! ### The claims -/

/-- C1: Idempotence of folder synchronization.  For every header extractor,
source server and destination server, running `sync_imap_accounts` (normal
mode, fault-free) and then running it again over the destination state the
first run produced yields a second run that issues no destination call at
all — in particular zero `append` calls — because every identity copied by
the first run is found in the destination index the second run rebuilds. -/
theorem sync_idempotent (extract : String → Option String)
    (src dst : Server) :
    (sync_imap_accounts extract noFaults true true src
      (sync_imap_accounts extract noFaults true true src dst false).st.dst
      false).st.calls = [] := by
  rcases h1 : syncFolders extract noFaults false src ⟨dst, [], [], []⟩ src
    with ⟨st1, b1⟩
  obtain ⟨hb1, hle1, hprops⟩ :=
    syncFolders_run extract src src ⟨dst, [], [], []⟩ st1 b1 h1
  have hrun1 : (sync_imap_accounts extract noFaults true true src dst
      false).st = st1 := by
    simp only [sync_imap_accounts, Bool.and_self, if_true, h1]
  rw [hrun1]
  rcases h2 : syncFolders extract noFaults false src ⟨st1.dst, [], [], []⟩ src
    with ⟨st2, b2⟩
  obtain ⟨hb2, hdst2, hcalls2⟩ :=
    syncFolders_stable extract src src ⟨st1.dst, [], [], []⟩ st2 b2 h2 hprops
  have hrun2 : (sync_imap_accounts extract noFaults true true src st1.dst
      false).st = st2 := by
    simp only [sync_imap_accounts, Bool.and_self, if_true, h2]
  rw [hrun2, hcalls2]

/-- C2: No-duplication.  In any mode (dry-run or not) and under any fault
environment, a fetched message whose extracted identity key is a member of
the destination index is processed without issuing any call: the state is
returned unchanged (in particular no `append` is recorded) and the iteration
does not raise. -/
theorem no_duplicate_append (extract : String → Option String)
    (faults : Faults) (dry_run : Bool) (folder : String) (ids : List String)
    (st : St) (key : Nat) (m : Msg) (i : String)
    (h1 : msgId extract m = some i) (h2 : i ∈ ids) :
    syncMessage extract faults dry_run folder ids st (key, m) = (st, false) := by
  simp [syncMessage, h1, h2]

/-- Witness for `no_duplicate_append` at a concrete duplicate message. -/
theorem no_duplicate_append_witness :
    msgId idExtract ⟨"x", []⟩ = some "x" ∧ "x" ∈ ["x"] ∧
    syncMessage idExtract noFaults false "A" ["x"] ⟨[], [], [], []⟩
      (1, ⟨"x", []⟩) = (⟨[], [], [], []⟩, false) :=
  ⟨by decide, by decide,
    no_duplicate_append idExtract noFaults false "A" ["x"] ⟨[], [], [], []⟩
      1 ⟨"x", []⟩ "x" (by decide) (by decide)⟩

/-- C3 counterexample: with two source folders `A` and `B` and an append
into `A` raising, the run stops inside folder `A` — folder `B` is never
processed (no `create B` although `B` is absent from the destination, and no
call of any kind after the failing append) — refuting the claim that a
single message's append error is caught at folder or message scope and the
run proceeds to the next folder. -/
theorem folder_error_not_isolated_cex :
    (sync_imap_accounts idExtract appendFaultA true true cexSrc []
      false).runErrorLogged = true ∧
    (sync_imap_accounts idExtract appendFaultA true true cexSrc []
        false).st.calls = [Call.create "A", Call.append "A" "a1" []] ∧
    Call.create "B" ∉ (sync_imap_accounts idExtract appendFaultA true true
      cexSrc [] false).st.calls := by
  decide

/-- C3 amended: an error raised inside one folder iteration (source
selection, folder creation, or a message append — index-build errors alone
are contained inside `get_message_ids`) is caught only at run scope: the
run-level `except` logs it and both sessions are still logged out, but all
remaining folders of the run are abandoned — the final state is exactly the
state at the moment of the raise. -/
theorem folder_error_caught_at_run_scope (extract : String → Option String)
    (faults : Faults) (dry_run : Bool) (fd : Folder) (rest : List Folder)
    (dst : Server) (st1 : St)
    (h : syncFolder extract faults dry_run (fd :: rest) ⟨dst, [], [], []⟩ fd
      = (st1, true)) :
    sync_imap_accounts extract faults true true (fd :: rest) dst dry_run =
      ⟨st1, true, true, false, [1, 2]⟩ := by
  simp [sync_imap_accounts, syncFolders, h]

/-- Witness for `folder_error_caught_at_run_scope` at the concrete
append-fault scenario. -/
theorem folder_error_caught_at_run_scope_witness :
    syncFolder idExtract appendFaultA false cexSrc ⟨[], [], [], []⟩
        ⟨"A", [⟨"a1", []⟩]⟩ =
      (⟨[⟨"A", []⟩], [Call.create "A", Call.append "A" "a1" []], [], []⟩,
        true) ∧
    sync_imap_accounts idExtract appendFaultA true true cexSrc [] false =
      ⟨⟨[⟨"A", []⟩], [Call.create "A", Call.append "A" "a1" []], [], []⟩,
        true, true, false, [1, 2]⟩ :=
  ⟨by decide,
    folder_error_caught_at_run_scope idExtract appendFaultA false
      ⟨"A", [⟨"a1", []⟩]⟩ [⟨"B", [⟨"b1", []⟩]⟩] []
      ⟨[⟨"A", []⟩], [Call.create "A", Call.append "A" "a1" []], [], []⟩
      (by decide)⟩

/-- C4 counterexample: when the source connection succeeds and the
destination connection fails, `sync_imap_accounts` returns at line 113,
before the `try`/`finally`, so no `logout` is called at all — the
successfully opened source session is not closed, refuting cleanup on every
exit path. -/
theorem early_fatal_no_logout_cex :
    (sync_imap_accounts idExtract noFaults true false [] [] false).logouts
        = [] ∧
    (sync_imap_accounts idExtract noFaults true false [] []
      false).fatalConnError = true := by
  decide

/-- C4 amended: `logout` is called on both sessions exactly when both
connections succeeded — on every exit path of the run loop, including a
raised run-loop error; when either connection failed, the early fatal return
calls no `logout`, even on a session that was successfully opened. -/
theorem logouts_match_connection_success (extract : String → Option String)
    (faults : Faults) (conn1 conn2 : Bool) (src dst : Server)
    (dry_run : Bool) :
    (sync_imap_accounts extract faults conn1 conn2 src dst dry_run).logouts
      = (if conn1 && conn2 then [1, 2] else []) := by
  cases hc : conn1 && conn2 <;> simp [sync_imap_accounts, hc]

/-- C5 counterexample: the source connects, the destination connection
fails; the fatal connection error is logged and no sync is attempted, but
the process exit status is 0, not non-zero — `main` never calls `sys.exit`
and `sync_imap_accounts` just returns. -/
theorem exit_zero_on_conn_failure_cex :
    main_exit_status idExtract noFaults true false [⟨"A", []⟩] [] false
        = 0 ∧
    (sync_imap_accounts idExtract noFaults true false [⟨"A", []⟩] []
      false).fatalConnError = true ∧
    (sync_imap_accounts idExtract noFaults true false [⟨"A", []⟩] []
      false).srcListed = false := by
  decide

/-- C5 amended: the process exit status is 0 on every run — the program has
no non-zero exit path, including connection failure at startup; when the
source connects but the destination fails, no folder listing or sync is
attempted (no destination call is issued) and the fatal connection error is
logged, yet the exit status is still 0. -/
theorem exit_status_always_zero (extract : String → Option String)
    (faults : Faults) (conn1 conn2 : Bool) (src dst : Server)
    (dry_run : Bool) :
    main_exit_status extract faults conn1 conn2 src dst dry_run = 0 ∧
    ((sync_imap_accounts extract faults true false src dst
        dry_run).srcListed = false ∧
      (sync_imap_accounts extract faults true false src dst
        dry_run).st.calls = [] ∧
      (sync_imap_accounts extract faults true false src dst
        dry_run).fatalConnError = true) := by
  refine ⟨rfl, ?_⟩
  simp [sync_imap_accounts]

/-- C6: Missing-identity skip.  In any mode and under any fault
environment, a fetched message whose identity key is absent (header missing,
unparseable, or falsy) is skipped: the only state change is the recorded
warning for that message, no call is issued, and the iteration continues
(does not raise). -/
theorem missing_identity_skipped (extract : String → Option String)
    (faults : Faults) (dry_run : Bool) (folder : String) (ids : List String)
    (st : St) (key : Nat) (m : Msg) (h : msgId extract m = none) :
    syncMessage extract faults dry_run folder ids st (key, m) =
      ({ st with warnings := st.warnings ++ [(folder, key)] }, false) := by
  simp [syncMessage, h]

/-- Witness for `missing_identity_skipped` with an extractor that finds no
header. -/
theorem missing_identity_skipped_witness :
    msgId (fun _ => none) ⟨"x", []⟩ = none ∧
    syncMessage (fun _ => none) noFaults true "A" [] ⟨[], [], [], []⟩
      (1, ⟨"x", []⟩) = (⟨[], [], [("A", 1)], []⟩, false) :=
  ⟨rfl, missing_identity_skipped (fun _ => none) noFaults true "A" []
    ⟨[], [], [], []⟩ 1 ⟨"x", []⟩ rfl⟩

/-- C7: Dry-run frame property.  For every run with `dry_run = true`, under
any fault environment and connection outcome, no mutating destination call
is issued (the call trace is empty — no `create_folder` and no `append`)
and the destination server state is unchanged by the run. -/
theorem dry_run_frame (extract : String → Option String) (faults : Faults)
    (conn1 conn2 : Bool) (src dst : Server) :
    (sync_imap_accounts extract faults conn1 conn2 src dst true).st.calls
        = [] ∧
    (sync_imap_accounts extract faults conn1 conn2 src dst true).st.dst
        = dst := by
  cases hc : conn1 && conn2
  · simp [sync_imap_accounts, hc]
  · rcases h : syncFolders extract faults true src ⟨dst, [], [], []⟩ src
      with ⟨st', b⟩
    obtain ⟨hd, hcalls⟩ :=
      syncFolders_dry extract faults src src ⟨dst, [], [], []⟩ st' b h
    simp [sync_imap_accounts, hc, h, hd, hcalls]

/-- C8: Index-build error containment.  `get_message_ids` returns the empty
set with a logged error — instead of raising — when the folder cannot be
selected (absent, or selection fault) or its messages cannot be retrieved
(fetch fault on a non-empty folder); an empty folder yields the empty set
with no error. -/
theorem index_build_error_contained (extract : String → Option String)
    (faults : Faults) (srv : Server) (f : String) :
    ((lookupFolder srv f = none ∨ faults.dstSelectFails f = true) →
      get_message_ids extract faults srv f = ([], true)) ∧
    (lookupFolder srv f = some [] → faults.dstSelectFails f = false →
      get_message_ids extract faults srv f = ([], false)) ∧
    (∀ msgs, lookupFolder srv f = some msgs → msgs ≠ [] →
      faults.dstSelectFails f = false → faults.dstFetchFails f = true →
      get_message_ids extract faults srv f = ([], true)) := by
  refine ⟨?_, ?_, ?_⟩
  · rintro (h | h)
    · simp [get_message_ids, h]
    · cases hl : lookupFolder srv f <;> simp [get_message_ids, hl, h]
  · intro hl hsel
    simp [get_message_ids, hl, hsel]
  · intro msgs hl hne hsel hf
    simp [get_message_ids, hl, hsel, hf, List.isEmpty_iff, hne]

/-- Witness for `index_build_error_contained`: an absent folder, an empty
folder, and a fetch fault on a non-empty folder. -/
theorem index_build_error_contained_witness :
    get_message_ids idExtract noFaults [] "A" = ([], true) ∧
    get_message_ids idExtract noFaults [⟨"A", []⟩] "A" = ([], false) ∧
    get_message_ids idExtract fetchFaultA [⟨"A", [⟨"a1", []⟩]⟩] "A"
      = ([], true) :=
  ⟨(index_build_error_contained idExtract noFaults [] "A").1 (Or.inl rfl),
    (index_build_error_contained idExtract noFaults [⟨"A", []⟩] "A").2.1
      (by decide) (by decide),
    (index_build_error_contained idExtract fetchFaultA
        [⟨"A", [⟨"a1", []⟩]⟩] "A").2.2 [⟨"a1", []⟩] (by decide) (by decide)
      (by decide) (by decide)⟩

/-- C9: Folder reconciliation.  In normal (non-dry-run) mode, one folder
iteration issues `create_folder` exactly when the source folder's exact name
string is absent from the current destination listing (comparison is plain
string equality, no normalization), and the create call precedes every
append into that folder in the call trace; when the name is present, no
create call is issued — any calls added are appends into that folder. -/
theorem folder_reconciliation (extract : String → Option String)
    (faults : Faults) (src : Server) (st : St) (fd : Folder) (st' : St)
    (b : Bool) (h : syncFolder extract faults false src st fd = (st', b)) :
    (fd.name ∉ st.dst.map Folder.name →
      ∃ tail, st'.calls = st.calls ++ Call.create fd.name :: tail ∧
        ∀ c ∈ tail, ∃ r fl, c = Call.append fd.name r fl) ∧
    (fd.name ∈ st.dst.map Folder.name →
      ∃ tail, st'.calls = st.calls ++ tail ∧
        ∀ c ∈ tail, ∃ r fl, c = Call.append fd.name r fl) := by
  constructor
  · intro hn
    simp only [syncFolder, createStep, if_neg hn, Bool.false_eq_true,
      if_false] at h
    cases hcf : faults.createFails fd.name
    · rw [hcf] at h
      simp only [Bool.false_eq_true, if_false] at h
      obtain ⟨tail, ht, hta⟩ := syncFolderMsgs_calls_shape extract faults
        false src fd.name _ st' b h
      refine ⟨tail, ?_, hta⟩
      rw [ht]
      simp
    · rw [hcf] at h
      simp only [if_true, Prod.mk.injEq] at h
      obtain ⟨rfl, rfl⟩ := h
      exact ⟨[], by simp, fun c hc => by simp at hc⟩
  · intro hn
    simp only [syncFolder, createStep, if_pos hn] at h
    exact syncFolderMsgs_calls_shape extract faults false src fd.name st
      st' b h

/-- Witness for `folder_reconciliation`: an absent folder gets exactly one
create, a present folder gets none. -/
theorem folder_reconciliation_witness :
    (∃ tail, ([Call.create "A"] : List Call)
        = [] ++ Call.create "A" :: tail ∧
      ∀ c ∈ tail, ∃ r fl, c = Call.append "A" r fl) ∧
    (∃ tail, ([] : List Call) = [] ++ tail ∧
      ∀ c ∈ tail, ∃ r fl, c = Call.append "B" r fl) :=
  ⟨(folder_reconciliation idExtract noFaults [⟨"A", []⟩] ⟨[], [], [], []⟩
      ⟨"A", []⟩ ⟨[⟨"A", []⟩], [Call.create "A"], [], []⟩ false
      (by decide)).1 (by decide),
    (folder_reconciliation idExtract noFaults [⟨"B", []⟩]
      ⟨[⟨"B", []⟩], [], [], []⟩ ⟨"B", []⟩ ⟨[⟨"B", []⟩], [], [], []⟩ false
      (by decide)).2 (by decide)⟩

/-- C10: No intra-run deduplication.  The destination index is fixed before
the transfer pass and never updated during it, so the number of `append`
calls the pass issues equals the number of source messages whose identity
key is defined and absent from that pre-built index — counted with
multiplicity: when several source messages share one identity key absent
from the index, every one of them is appended in that single run, not just
the first. -/
theorem no_intra_run_dedup (extract : String → Option String)
    (folder : String) (ids : List String) (st : St) (msgs : List Msg)
    (hsome : (lookupFolder st.dst folder).isSome) :
    (syncMsgs extract noFaults false folder ids st
        msgs.enum).1.calls.countP isAppend =
      st.calls.countP isAppend + msgs.countP (copiesMsg extract ids) := by
  rw [syncMsgs_append_count extract folder ids msgs.enum st hsome]
  congr 1
  exact enumFrom_countP_snd (copiesMsg extract ids) msgs 0

/-- Witness for `no_intra_run_dedup`: two source messages with the same
identity key, absent from the index, are both appended (two append calls in
one pass). -/
theorem no_intra_run_dedup_witness :
    (lookupFolder [⟨"A", []⟩] "A").isSome = true ∧
    (syncMsgs idExtract noFaults false "A" [] ⟨[⟨"A", []⟩], [], [], []⟩
        ([⟨"m", []⟩, ⟨"m", []⟩] : List Msg).enum).1.calls.countP isAppend =
      ([] : List Call).countP isAppend +
        ([⟨"m", []⟩, ⟨"m", []⟩] : List Msg).countP (copiesMsg idExtract []) ∧
    (syncMsgs idExtract noFaults false "A" [] ⟨[⟨"A", []⟩], [], [], []⟩
        ([⟨"m", []⟩, ⟨"m", []⟩] : List Msg).enum).1.calls.countP isAppend
      = 2 :=
  ⟨by decide,
    no_intra_run_dedup idExtract "A" [] ⟨[⟨"A", []⟩], [], [], []⟩
      [⟨"m", []⟩, ⟨"m", []⟩] (by decide),
    by decide⟩

end ImapSync
